import Mathlib

/-!
# libgcrypt-sys `shim.c`: the thread-callback table accessor

The translation unit is

```c
GCRY_THREAD_OPTION_PTHREAD_IMPL;
struct gcry_threads_cbs *gcry_threads_pthread_shim(void) {
  return &gcry_threads_pthread;
}
```

The embedding below gives pointer values a block/offset shape, keeps the process
state explicit (contents of the static table, the state of the cryptographic
library, the heap), writes the accessor in a state-and-error monad the way the
C body reads, and puts concurrent calls on a step function driven by a schedule.
-/

namespace LibgcryptSys

/-! ## Pointers -/

/-- Linker symbol of an object with static storage duration. -/
structure StaticSym where
  name : String
  deriving DecidableEq, Repr

/-- Memory block: either the storage of a static object or the `idx`-th heap allocation. -/
inductive Block where
  | static (sym : StaticSym)
  | heap (idx : Nat)
  deriving DecidableEq, Repr

/-- C pointer value: `NULL`, or a byte offset into a block. -/
inductive Ptr where
  | null
  | obj (b : Block) (off : Nat)
  deriving DecidableEq, Repr

/-- The C expression `&sym` for an object `sym` with static storage duration: an address
constant designating the start of the block of `sym`. -/
def Ptr.addrOf (sym : StaticSym) : Ptr :=
  Ptr.obj (Block.static sym) 0

/-! ## The callback table (`gcrypt.h`) -/

/-- Modelled from the spec: the threading model a callback table belongs to (`gcrypt.h`, which
declares the thread options, is absent from the sources). The spec names the
pthread model; every other model is kept apart by a number. -/
inductive ThreadingModel where
  | pthread
  | other (id : Nat)
  deriving DecidableEq, Repr

/-- Modelled from the spec: the "version/option tag identifying which threading implementation
it corresponds to" (the field `option` of the table, declared in `gcrypt.h`). -/
structure OptionTag where
  impl : ThreadingModel
  version : Nat
  deriving DecidableEq, Repr

/-- Function pointer: a code address, `0` standing for `NULL`. -/
structure FnPtr where
  code : Nat
  deriving DecidableEq, Repr

/-- Modelled from the spec: the function-pointer part of a callback table, "mutex
init/destroy/lock/unlock, thread-id retrieval" (the struct is declared in `gcrypt.h`). -/
structure Callbacks where
  mutex_init : FnPtr
  mutex_destroy : FnPtr
  mutex_lock : FnPtr
  mutex_unlock : FnPtr
  thread_id : FnPtr
  deriving DecidableEq, Repr

/-- Modelled from the spec: CallbackTable, "an opaque, library-defined structure of function
pointers plus a version/option tag" (the struct is declared in `gcrypt.h`). -/
structure CallbackTable where
  option : OptionTag
  cbs : Callbacks
  deriving DecidableEq, Repr

/-- The one object with static storage duration that `shim.c` defines (through
`GCRY_THREAD_OPTION_PTHREAD_IMPL`) and names (in the return statement). -/
def gcry_threads_pthread : StaticSym :=
  ⟨"gcry_threads_pthread"⟩

/-- Modelled from the spec: the initialiser that `GCRY_THREAD_OPTION_PTHREAD_IMPL` (a definition
of `gcrypt.h`, expanded on line 5 of `shim.c`) gives the static table `gcry_threads_pthread`: a
"statically-defined pthread-style callback table", so its tag names the pthread model. What the
spec leaves open, the version number and the callbacks, are parameters. -/
def GCRY_THREAD_OPTION_PTHREAD_IMPL (version : Nat) (cbs : Callbacks) : CallbackTable :=
  { option := { impl := ThreadingModel.pthread, version := version }, cbs := cbs }

/-! ## Process state -/

/-- Modelled from the spec: LibraryInitState, "process-wide, one-shot state: uninitialized,
initializing, initialized" of the cryptographic library (the library is external to `shim.c`). -/
inductive LibraryInitState where
  | uninitialized
  | initializing
  | initialized
  deriving DecidableEq, Repr

/-- Explicit state of the process around a call of the accessor. -/
structure ProcState where
  /-- contents of the static object `gcry_threads_pthread` -/
  table : CallbackTable
  /-- state of the cryptographic library -/
  lib : LibraryInitState
  /-- the table reference handed to the library by its "set thread callbacks" control call -/
  registered : Option Ptr
  /-- number of heap blocks allocated so far; block `Block.heap i` exists iff `i < heapAllocs` -/
  heapAllocs : Nat
  deriving DecidableEq, Repr

/-- Process image at start: the static table holds its initialiser, the library is untouched,
nothing is registered, the heap is empty. -/
def ProcState.init (version : Nat) (cbs : Callbacks) : ProcState :=
  { table := GCRY_THREAD_OPTION_PTHREAD_IMPL version cbs
    lib := LibraryInitState.uninitialized
    registered := none
    heapAllocs := 0 }

/-- Reading a callback table through a pointer: defined at offset `0` of the block of
`gcry_threads_pthread`, the only table object of the process state. -/
def ProcState.load (s : ProcState) (p : Ptr) : Option CallbackTable :=
  if p = Ptr.addrOf gcry_threads_pthread then some s.table else none

/-- Runtime error code (`errno.h`). -/
abbrev Errno := Nat

/-- C code acting on the process: it reads and writes the process state and ends in a value
or in an error code. -/
abbrev Proc (α : Type) := StateT ProcState (Except Errno) α

/-! ## The accessor -/

/-- Embedding of `shim.c`, lines 6 to 8:
`struct gcry_threads_cbs *gcry_threads_pthread_shim(void) { return &gcry_threads_pthread; }`.
Pointer values carry no type here, so converting `&gcry_threads_pthread` to the declared return
type keeps the value. -/
def gcry_threads_pthread_shim : Proc Ptr := do
  return Ptr.addrOf gcry_threads_pthread

/-- Calling the accessor `n` times in a row, keeping the returned references in call order. -/
def callTimes : Nat → Proc (List Ptr)
  | 0 => pure []
  | n + 1 => do
    let r ← gcry_threads_pthread_shim
    let rs ← callTimes n
    return r :: rs

/-! ## Concurrent calls -/

/-- Where one thread stands in its call of the accessor. -/
inductive CallPhase where
  /-- the call has not begun -/
  | ready
  /-- control is inside the function, in front of the return statement -/
  | entered
  /-- the call has returned the reference `r` -/
  | returned (r : Ptr)
  /-- the call has ended in the error `e` -/
  | faulted (e : Errno)
  deriving DecidableEq, Repr

/-- One step of one thread on the shared process state: entering the function touches nothing,
the return statement runs the body of `gcry_threads_pthread_shim`, a finished call stays put. -/
def stepCall (s : ProcState) : CallPhase → CallPhase × ProcState
  | CallPhase.ready => (CallPhase.entered, s)
  | CallPhase.entered =>
    match gcry_threads_pthread_shim.run s with
    | Except.ok (r, s') => (CallPhase.returned r, s')
    | Except.error e => (CallPhase.faulted e, s)
  | ph => (ph, s)

/-- Threads of one process: the state they share and the phase of each thread's call. -/
structure System where
  shared : ProcState
  threads : List CallPhase
  deriving DecidableEq, Repr

/-- The process with `n` threads, each about to call the accessor. -/
def System.spawn (s : ProcState) (n : Nat) : System :=
  { shared := s, threads := List.replicate n CallPhase.ready }

/-- The scheduler lets thread `tid` take one step (nothing happens for an unknown thread). -/
def System.step (sys : System) (tid : Nat) : System :=
  match sys.threads[tid]? with
  | none => sys
  | some ph =>
    { shared := (stepCall sys.shared ph).2
      threads := sys.threads.set tid (stepCall sys.shared ph).1 }

/-- An interleaving is the order in which the scheduler picks threads. -/
def System.run (sys : System) (sched : List Nat) : System :=
  sched.foldl System.step sys

/-- A process image used to evaluate the definitions: version 1, no callback installed. -/
def ProcState.sample : ProcState :=
  ProcState.init 1 ⟨⟨0⟩, ⟨0⟩, ⟨0⟩, ⟨0⟩, ⟨0⟩⟩

/-- An interleaving of one hundred threads in which all calls overlap: threads 0 to 99 enter
the function one after the other, then return in the opposite order, 99 first. -/
def overlappingSchedule : List Nat :=
  List.range 100 ++ (List.range 100).reverse

/-- Phase of a call of the accessor after its thread has been scheduled `k` times: not begun,
inside the function, and from the second step on returned with the address of the table. -/
def phaseAfter : Nat → CallPhase
  | 0 => CallPhase.ready
  | 1 => CallPhase.entered
  | _ => CallPhase.returned (Ptr.addrOf gcry_threads_pthread)

/-! ## Properties of one call -/

theorem shim_run (s : ProcState) :
    gcry_threads_pthread_shim.run s = Except.ok (Ptr.addrOf gcry_threads_pthread, s) :=
  rfl

theorem addrOf_ne_null (sym : StaticSym) : Ptr.addrOf sym ≠ Ptr.null := by
  intro h
  cases h

theorem callTimes_run (n : Nat) (s : ProcState) :
    (callTimes n).run s
      = Except.ok (List.replicate n (Ptr.addrOf gcry_threads_pthread), s) := by
  induction n with
  | zero => rfl
  | succ k ih =>
    show (gcry_threads_pthread_shim >>= fun r => callTimes k >>= fun rs => pure (r :: rs)).run s = _
    rw [StateT.run_bind, shim_run]
    show ((callTimes k >>= fun rs => pure (Ptr.addrOf gcry_threads_pthread :: rs)).run s) = _
    rw [StateT.run_bind, ih]
    rfl

/-! ## Properties of the interleaved calls -/

theorem stepCall_phaseAfter (s : ProcState) (k : Nat) :
    stepCall s (phaseAfter k) = (phaseAfter (k + 1), s) := by
  match k with
  | 0 => rfl
  | 1 => rfl
  | _ + 2 => rfl

theorem step_phases (s : ProcState) (N : Nat) (c : Nat → Nat) (sys : System) (t : Nat)
    (hs : sys.shared = s) (ht : sys.threads = (List.range N).map (fun i => phaseAfter (c i))) :
    (sys.step t).shared = s ∧
      (sys.step t).threads
        = (List.range N).map (fun i => phaseAfter (c i + if t = i then 1 else 0)) := by
  by_cases hlt : t < N
  · have hget : sys.threads[t]? = some (phaseAfter (c t)) := by
      rw [ht, List.getElem?_map, List.getElem?_range hlt]
      rfl
    have hstep : sys.step t
        = { shared := (stepCall sys.shared (phaseAfter (c t))).2
            threads := sys.threads.set t (stepCall sys.shared (phaseAfter (c t))).1 } := by
      unfold System.step
      rw [hget]
    rw [hstep, stepCall_phaseAfter]
    refine ⟨hs, ?_⟩
    apply List.ext_getElem?
    intro i
    show (sys.threads.set t (phaseAfter (c t + 1)))[i]? = _
    rw [List.getElem?_set, ht, List.getElem?_map, List.getElem?_map]
    by_cases hti : t = i
    · subst hti
      simp [List.getElem?_range hlt, hlt]
    · by_cases hi : i < N
      · simp [hti, List.getElem?_range hi]
      · simp [hti, List.getElem?_eq_none (by simpa using hi : (List.range N).length ≤ i)]
  · have hget : sys.threads[t]? = none := by
      rw [ht, List.getElem?_map]
      simp [List.getElem?_eq_none (by simpa using hlt : (List.range N).length ≤ t)]
    have hstep : sys.step t = sys := by
      unfold System.step
      rw [hget]
    rw [hstep]
    refine ⟨hs, ?_⟩
    rw [ht]
    apply List.map_congr_left
    intro i hi
    have hi' : i < N := List.mem_range.mp hi
    have hne : t ≠ i := by omega
    simp [hne]

theorem run_phases (s : ProcState) (N : Nat) (sched : List Nat) :
    ∀ (c : Nat → Nat) (sys : System), sys.shared = s →
      sys.threads = (List.range N).map (fun i => phaseAfter (c i)) →
      (sys.run sched).shared = s ∧
        (sys.run sched).threads
          = (List.range N).map (fun i => phaseAfter (c i + sched.count i)) := by
  induction sched with
  | nil =>
    intro c sys hs ht
    exact ⟨hs, by simpa [System.run] using ht⟩
  | cons t rest ih =>
    intro c sys hs ht
    have h1 := step_phases s N c sys t hs ht
    have h2 := ih (fun i => c i + if t = i then 1 else 0) (sys.step t) h1.1 h1.2
    have hrun : sys.run (t :: rest) = (sys.step t).run rest := rfl
    rw [hrun]
    refine ⟨h2.1, ?_⟩
    rw [h2.2]
    apply List.map_congr_left
    intro i _
    rw [List.count_cons]
    by_cases hti : t = i
    · subst hti
      simp
      congr 1
      omega
    · have hbeq : (t == i) = false := by simpa using hti
      simp [hti, hbeq]

theorem run_spawn (s : ProcState) (N : Nat) (sched : List Nat) :
    ((System.spawn s N).run sched).shared = s ∧
      ((System.spawn s N).run sched).threads
        = (List.range N).map (fun i => phaseAfter (sched.count i)) := by
  have h := run_phases s N sched (fun _ => 0) (System.spawn s N) rfl (by
    apply List.ext_getElem?
    intro i
    simp [System.spawn, List.getElem?_replicate, List.getElem?_map, phaseAfter])
  simpa using h

/-! ## The claims -/

/-- C1: whatever the process state is at the first and at the second of two calls of
`gcry_threads_pthread_shim`, both calls return, the two references are not null, they are
identical, and they are the address of the static table `gcry_threads_pthread`. -/
theorem shim_nonnull_identical (s₁ s₂ : ProcState) :
    ∃ r₁ t₁ r₂ t₂,
      gcry_threads_pthread_shim.run s₁ = Except.ok (r₁, t₁) ∧
      gcry_threads_pthread_shim.run s₂ = Except.ok (r₂, t₂) ∧
      r₁ ≠ Ptr.null ∧ r₂ ≠ Ptr.null ∧ r₁ = r₂ ∧
      r₁ = Ptr.addrOf gcry_threads_pthread :=
  ⟨_, _, _, _, shim_run s₁, shim_run s₂, addrOf_ne_null _, addrOf_ne_null _, rfl, rfl⟩

/-- C2: in every state the call returns the address of `gcry_threads_pthread`, the object that
`GCRY_THREAD_OPTION_PTHREAD_IMPL` defines, and of no other block or offset; and after any
number of earlier calls in a process started from its initial image, the table read through the
returned reference is the one the definition initialised, whose tag names the pthread model. -/
theorem shim_designates_pthread_table (s : ProcState) (b : Block) (off : Nat)
    (version : Nat) (cbs : Callbacks) (n : Nat) :
    ∃ r t,
      gcry_threads_pthread_shim.run s = Except.ok (r, t) ∧
      r = Ptr.addrOf gcry_threads_pthread ∧
      (r = Ptr.obj b off ↔ b = Block.static gcry_threads_pthread ∧ off = 0) ∧
      ∃ r' t',
        (callTimes n >>= fun _ => gcry_threads_pthread_shim).run (ProcState.init version cbs)
          = Except.ok (r', t') ∧
        r' = r ∧
        t'.load r' = some (GCRY_THREAD_OPTION_PTHREAD_IMPL version cbs) ∧
        Option.map (fun tbl => tbl.option.impl) (t'.load r') = some ThreadingModel.pthread := by
  refine ⟨_, _, shim_run s, rfl, ?_,
    Ptr.addrOf gcry_threads_pthread, ProcState.init version cbs, ?_, rfl, rfl, rfl⟩
  · constructor
    · intro h
      simpa [Ptr.addrOf, eq_comm] using h
    · rintro ⟨hb, ho⟩
      rw [hb, ho]
      rfl
  · rw [StateT.run_bind, callTimes_run]
    rfl

/-- C3: a call of `gcry_threads_pthread_shim` leaves the whole explicit state as it found it:
the contents of the table, the state of the library, what is registered with the library and
the heap (so nothing was copied) are the same after the call as before. -/
theorem shim_frame (s : ProcState) :
    ∃ r t,
      gcry_threads_pthread_shim.run s = Except.ok (r, t) ∧
      t = s ∧ t.table = s.table ∧ t.lib = s.lib ∧ t.registered = s.registered ∧
      t.heapAllocs = s.heapAllocs :=
  ⟨_, _, shim_run s, rfl, rfl, rfl, rfl, rfl⟩

/-- C4: `gcry_threads_pthread_shim` has no argument and, as a computation that ends in a value or
an error, ends in a value in every state: the value is a reference that is not null, and no
error code is ever the outcome. -/
theorem shim_total_ok (s : ProcState) :
    (∃ r t, gcry_threads_pthread_shim.run s = Except.ok (r, t) ∧ r ≠ Ptr.null) ∧
    ∀ e : Errno, gcry_threads_pthread_shim.run s ≠ Except.error e := by
  refine ⟨⟨_, _, shim_run s, addrOf_ne_null _⟩, ?_⟩
  intro e h
  rw [shim_run] at h
  cases h

/-- C5: `N` threads call `gcry_threads_pthread_shim` and the scheduler interleaves their steps in
any order `sched`. The shared state, the heap with it, is what it was (no call allocates); a
thread's progress depends on its own steps alone: never scheduled it has not begun, scheduled
once it is inside the function, scheduled twice or more it has returned, whatever the others
did (no call waits); no call fails; and any two calls that have returned
hold the same reference, the address of `gcry_threads_pthread`. -/
theorem shim_concurrent_calls (N : Nat) (s : ProcState) (sched : List Nat) :
    ((System.spawn s N).run sched).shared = s ∧
    ((System.spawn s N).run sched).shared.heapAllocs = s.heapAllocs ∧
    ((System.spawn s N).run sched).threads.length = N ∧
    (∀ i : Nat, i < N → sched.count i = 0 →
      ((System.spawn s N).run sched).threads[i]? = some CallPhase.ready) ∧
    (∀ i : Nat, i < N → sched.count i = 1 →
      ((System.spawn s N).run sched).threads[i]? = some CallPhase.entered) ∧
    (∀ i : Nat, i < N → 2 ≤ sched.count i →
      ((System.spawn s N).run sched).threads[i]?
        = some (CallPhase.returned (Ptr.addrOf gcry_threads_pthread))) ∧
    (∀ (i : Nat) (e : Errno),
      ((System.spawn s N).run sched).threads[i]? ≠ some (CallPhase.faulted e)) ∧
    (∀ (i j : Nat) (r₁ r₂ : Ptr),
      ((System.spawn s N).run sched).threads[i]? = some (CallPhase.returned r₁) →
      ((System.spawn s N).run sched).threads[j]? = some (CallPhase.returned r₂) →
      r₁ = r₂ ∧ r₁ = Ptr.addrOf gcry_threads_pthread) := by
  obtain ⟨hsh, hth⟩ := run_spawn s N sched
  have hget : ∀ i, i < N →
      ((System.spawn s N).run sched).threads[i]? = some (phaseAfter (sched.count i)) := by
    intro i hi
    rw [hth, List.getElem?_map, List.getElem?_range hi]
    rfl
  have hlen : ((System.spawn s N).run sched).threads.length = N := by
    rw [hth]
    simp
  have hphase : ∀ i ph, ((System.spawn s N).run sched).threads[i]? = some ph →
      ph = phaseAfter (sched.count i) := by
    intro i ph h
    have hi : i < N := by
      rw [← hlen]
      exact (List.getElem?_eq_some_iff.mp h).1
    rw [hget i hi] at h
    exact (Option.some.inj h).symm
  have hret : ∀ k r, CallPhase.returned r = phaseAfter k → r = Ptr.addrOf gcry_threads_pthread := by
    intro k r h
    match k, h with
    | 0, h => cases h
    | 1, h => cases h
    | _ + 2, h => exact CallPhase.returned.inj h
  refine ⟨hsh, by rw [hsh], hlen, ?_, ?_, ?_, ?_, ?_⟩
  · intro i hi h0
    rw [hget i hi, h0]
    rfl
  · intro i hi h1
    rw [hget i hi, h1]
    rfl
  · intro i hi h2
    rw [hget i hi]
    obtain ⟨k, hk⟩ : ∃ k, sched.count i = k + 2 := ⟨sched.count i - 2, by omega⟩
    rw [hk]
    rfl
  · intro i e h
    have h' := hphase i _ h
    match hk : sched.count i, h' with
    | 0, h' => cases h'
    | 1, h' => cases h'
    | _ + 2, h' => cases h'
  · intro i j r₁ r₂ h₁ h₂
    have e₁ := hret _ _ (hphase i _ h₁)
    have e₂ := hret _ _ (hphase j _ h₂)
    exact ⟨e₁.trans e₂.symm, e₁⟩

set_option maxRecDepth 100000

/-- Evaluation of C5 on one hundred threads whose calls all overlap: thread 57 is scheduled
twice and has returned the address of the table, as has thread 0, the last one to return. -/
theorem shim_concurrent_calls_witness :
    (57 < 100 ∧ 2 ≤ overlappingSchedule.count 57) ∧
    ((System.spawn ProcState.sample 100).run overlappingSchedule).threads[57]?
      = some (CallPhase.returned (Ptr.addrOf gcry_threads_pthread)) ∧
    ((System.spawn ProcState.sample 100).run overlappingSchedule).threads[0]?
      = some (CallPhase.returned (Ptr.addrOf gcry_threads_pthread)) ∧
    (Ptr.addrOf gcry_threads_pthread = Ptr.addrOf gcry_threads_pthread ∧
      Ptr.addrOf gcry_threads_pthread = Ptr.addrOf gcry_threads_pthread) :=
  ⟨⟨by decide, by decide⟩,
    (shim_concurrent_calls 100 ProcState.sample overlappingSchedule).2.2.2.2.2.1 57
      (by decide) (by decide),
    by decide,
    (shim_concurrent_calls 100 ProcState.sample overlappingSchedule).2.2.2.2.2.2.2 0 57 _ _
      (by decide) (by decide)⟩

/-- C6: the reference returned by `gcry_threads_pthread_shim` does not depend on the state: for
any two states, differing at will in the contents of the table, in the state of the library, in
what is registered or in the heap, the outcome of the call carries the same reference. -/
theorem shim_result_state_independent (s₁ s₂ : ProcState) :
    Except.map Prod.fst (gcry_threads_pthread_shim.run s₁)
      = Except.map Prod.fst (gcry_threads_pthread_shim.run s₂) :=
  rfl

end LibgcryptSys
